import Mathlib

/-!
Shallow embedding of the SkillbotAI core pipeline
(`src/ocr_service.py` and `src/recommender.py`).

Numeric values (Python `int`/`float`) are modelled as rationals `ℚ`;
strings are Lean `String`s (token processing is over their character
lists).  Python `None` is `Option.none`.  All definitions below are
translated from the source; each carries a pointer to the Python
function it embeds.
-/

namespace Skillbot

/-! ## ocr_service.extract_number_robust -/

/-- Maximal leading run of decimal digits (the greedy `\d+` / `\d*`). -/
def takeDigits : List Char → List Char
  | [] => []
  | c :: cs => if c.isDigit then c :: takeDigits cs else []

/-- Leftmost match of the pattern `\d+\.?\d*` in a character list:
the first digit starts the match, then a maximal digit run, an optional
single dot, and another maximal digit run. -/
def findNumTok : List Char → Option (List Char)
  | [] => none
  | c :: cs =>
    if c.isDigit then
      match (c :: cs).drop (takeDigits (c :: cs)).length with
      | '.' :: cs2 => some (takeDigits (c :: cs) ++ '.' :: takeDigits cs2)
      | _ => some (takeDigits (c :: cs))
    else findNumTok cs

/-- Numeric value of a digit list (most significant first). -/
def natOfDigits (ds : List Char) : ℕ :=
  ds.foldl (fun a c => 10 * a + (c.toNat - '0'.toNat)) 0

/-- Value of a matched token `digits[.digits]`, as Python `int(v)` /
`float(v)` would parse it (both collapse to the same rational). -/
def parseNumTok (tok : List Char) : ℚ :=
  let ip := takeDigits tok
  match tok.drop ip.length with
  | '.' :: fp => (natOfDigits ip : ℚ) + (natOfDigits fp : ℚ) / (10 ^ fp.length)
  | _ => (natOfDigits ip : ℚ)

/-- `ocr_service.extract_number_robust`: strip thousands-separator commas,
search for the leftmost `\d+\.?\d*` match, parse it; `None` if no match. -/
def extract_number_robust (s : String) : Option ℚ :=
  (findNumTok (s.data.filter (fun c => c ≠ ','))).map parseNumTok

/-! ## ocr_service.parse_marks_from_ocr_df -/

/-- One row of the parser's output table (`Subject | Maximum | Obtained`).
`Maximum`/`Obtained` hold `None` when absent (fallback pass). -/
structure MarksRecord where
  subject : String
  maximum : Option ℚ
  obtained : Option ℚ
deriving DecidableEq, Repr

/-- Python `int(...)` on a number: truncation toward zero. -/
def pyInt (q : ℚ) : ℤ := if q < 0 then -Rat.floor (-q) else Rat.floor q

/-- Python `str.strip()`: drop leading and trailing whitespace. -/
def pyStrip (s : String) : String :=
  ⟨((s.data.dropWhile Char.isWhitespace).reverse.dropWhile Char.isWhitespace).reverse⟩

/-- Python `str.upper()` (ASCII case mapping suffices for the tokens
the heuristics compare). -/
def pyUpper (s : String) : String := ⟨s.data.map Char.toUpper⟩

/-- `re.split` on single-character delimiters, keeping empty parts. -/
def splitChars (p : Char → Bool) : List Char → List (List Char)
  | [] => [[]]
  | c :: cs =>
    if p c then [] :: splitChars p cs
    else
      match splitChars p cs with
      | [] => [[c]]
      | h :: t => (c :: h) :: t

/-- `re.split(r'[:\-]', t)`. -/
def pySplitColonDash (t : String) : List String :=
  (splitChars (fun c => c = ':' || c = '-') t.data).map String.mk

/-- `re.search(r'[A-Za-z]{2,}', t)`: two consecutive ASCII letters. -/
def hasAlpha2 : List Char → Bool
  | a :: b :: rest => (a.isAlpha && b.isAlpha) || hasAlpha2 (b :: rest)
  | _ => false

/-- Case-sensitive substring test, `pat in hay` on character lists. -/
def containsSub (hay pat : List Char) : Bool := decide (pat <:+: hay)

/-- The plausible-subject heuristic on an already-stripped token `t`:
`re.search(r'[A-Za-z]{2,}', t) and "MARK" not in t.upper()`. -/
def isCandidateSubject (t : String) : Bool :=
  hasAlpha2 t.data && !containsSub (t.data.map Char.toUpper) "MARK".data

/-- The inner `while j < len and scanned < 6 and len(nums) < 2` loop of
the primary pass; `remaining = 6 - scanned` counts the scan window down,
so the recursion is structural. -/
def scanNumsAux (tl : List String) : ℕ → ℕ → List ℚ → ℕ × List ℚ
  | j, 0, nums => (j, nums)
  | j, remaining + 1, nums =>
    if h : j < tl.length ∧ nums.length < 2 then
      match extract_number_robust (tl.get ⟨j, h.1⟩) with
      | some n => scanNumsAux tl (j + 1) remaining (nums ++ [n])
      | none => scanNumsAux tl (j + 1) remaining nums
    else (j, nums)

/-- The scan window of the primary pass, started at `j` with `scanned = 0`
and no collected numbers: collect up to two numeric values from up to six
tokens, returning the final cursor and the collected numbers. -/
def scanNums (tl : List String) (j : ℕ) : ℕ × List ℚ :=
  scanNumsAux tl j 6 []

/-- One unit of `fuel` per iteration of the primary
`while i < len(text_list)` loop; the cursor grows by at least one each
iteration, so `tl.length - i` units are always enough (see
`primaryPassAux_fuel_eq`). -/
def primaryPassAux (tl : List String) : ℕ → ℕ → List MarksRecord
  | 0, _ => []
  | fuel + 1, i =>
    if h : i < tl.length then
      let t := pyStrip (tl.get ⟨i, h⟩)
      if t.data.length < 2 then primaryPassAux tl fuel (i + 1)
      else if isCandidateSubject t then
        let res := scanNums tl (i + 1)
        match res.2 with
        | [n1, n2] =>
          ⟨t, some ((pyInt n1 : ℤ) : ℚ), some ((pyInt n2 : ℤ) : ℚ)⟩ ::
            primaryPassAux tl fuel res.1
        | _ => primaryPassAux tl fuel (i + 1)
      else primaryPassAux tl fuel (i + 1)
    else []

/-- The primary pass of `ocr_service.parse_marks_from_ocr_df`, started at
cursor `i`. -/
def primaryPass (tl : List String) (i : ℕ) : List MarksRecord :=
  primaryPassAux tl (tl.length - i) i

/-- The fallback record attempt for one token `t`: split on `:`/`-`; with
two or more parts, extract numbers from each part; with at least one
number, emit a record (subject = first part trimmed, maximum = first
number truncated, obtained = second number truncated when present). -/
def fallbackRecord (t : String) : Option MarksRecord :=
  let parts := pySplitColonDash t
  if 2 ≤ parts.length then
    match parts.filterMap extract_number_robust with
    | [] => none
    | n1 :: rest =>
      some ⟨pyStrip (parts.headD ""), some ((pyInt n1 : ℤ) : ℚ),
        (rest.head?).map (fun n2 => ((pyInt n2 : ℤ) : ℚ))⟩
  else none

/-- The fallback `for t in text_list` loop. -/
def fallbackPass (tl : List String) : List MarksRecord :=
  tl.filterMap fallbackRecord

/-- `ocr_service.parse_marks_from_ocr_df` on the token list (the `text`
column of the OCR data frame): primary pass, falling back to the
delimiter heuristic when the primary pass produced no record. -/
def parse_marks_from_ocr_df (tl : List String) : List MarksRecord :=
  let primary := primaryPass tl 0
  if primary.isEmpty then fallbackPass tl else primary

/-! ## recommender.py -/

/-- `recommender.SUBJECT_KEYWORDS`: canonical subject id → alias tokens. -/
def SUBJECT_KEYWORDS : List (String × List String) :=
  [("math", ["MATH", "MATHEMATICS"]),
   ("physics", ["PHYSICS", "PHYS"]),
   ("chemistry", ["CHEMISTRY", "CHEM"]),
   ("biology", ["BIOLOGY", "BIO"]),
   ("computer", ["COMPUTER", "COMPUTER SCIENCE", "IT", "CS"]),
   ("english", ["ENGLISH", "ENG"]),
   ("urdu", ["URDU"]),
   ("islamiat", ["ISLAMIYAT"]),
   ("pakstudies", ["PAKISTAN STUDIES", "PAK STUDIES", "PAK STUD"])]

/-- `recommender.SUBFIELDS`: field name → static subfield list. -/
def SUBFIELDS : List (String × List String) :=
  [("STEM", ["Engineering", "Computer Science", "Pharmacy", "Medicine"]),
   ("ARTS", ["Design", "Fine Arts", "Journalism", "Languages"]),
   ("COMMERCE", ["Finance", "Accounting", "Business", "Economics"])]

/-- Case-insensitive substring containment,
`Series.str.contains(token, case=False)` on one subject cell. -/
def containsCI (hay pat : String) : Bool :=
  containsSub (hay.data.map Char.toUpper) (pat.data.map Char.toUpper)

/-- First record (in table order) whose subject text contains `tok`
case-insensitively: `marks_df[mask].iloc[0]`. -/
def firstMatchingRecord (df : List MarksRecord) (tok : String) : Option MarksRecord :=
  df.find? (fun r => containsCI r.subject tok)

/-- Scan the alias list in order; stop at the first alias matched by some
record, returning that alias's first matching record. -/
def findByAliases (df : List MarksRecord) : List String → Option MarksRecord
  | [] => none
  | tok :: toks =>
    match firstMatchingRecord df tok with
    | some r => some r
    | none => findByAliases df toks

/-- The score computed from a found record: `obtained/maximum` when
`maximum` is present and positive, `obtained` itself when `maximum` is
absent or not positive, `None` when `obtained` is absent. -/
def scoreOfRecord (r : MarksRecord) : Option ℚ :=
  match r.obtained, r.maximum with
  | some obt, some mx => if 0 < mx then some (obt / mx) else some obt
  | some obt, none => some obt
  | none, _ => none

/-- `recommender.extract_subject_scores`: canonical subject id →
normalized score or `None`; an absent (`None`) or empty table maps every
id to `None`. -/
def extract_subject_scores (marks : Option (List MarksRecord)) :
    List (String × Option ℚ) :=
  match marks with
  | none => SUBJECT_KEYWORDS.map (fun kv => (kv.1, none))
  | some df =>
    if df.isEmpty then SUBJECT_KEYWORDS.map (fun kv => (kv.1, none))
    else SUBJECT_KEYWORDS.map (fun kv =>
      match findByAliases df kv.2 with
      | some r => (kv.1, scoreOfRecord r)
      | none => (kv.1, none))

/-- A raw personality value as `recommender.normalize_personality`
receives it: `None`, a numeric value (what Python `float(v)` yields), or
a value `float` cannot parse. -/
inductive RawVal
  | null
  | num (q : ℚ)
  | junk
deriving DecidableEq, Repr

/-- The per-value three-tier rescaling rule of
`recommender.normalize_personality`. -/
def normalizeVal : RawVal → ℚ
  | .null => 0
  | .junk => 0
  | .num f => if f ≤ 5 then f / 5 else if f ≤ 100 then f / 100 else min 1 (f / 100)

/-- `recommender.normalize_personality`: rescale every trait value,
keeping the keys; a `None` mapping acts as the empty mapping. -/
def normalize_personality (personality : Option (List (String × RawVal))) :
    List (String × ℚ) :=
  (personality.getD []).map (fun kv => (kv.1, normalizeVal kv.2))

/-- `scores_dict.get(k) or 0.0`: an absent key or a `None`/zero value
contributes `0.0`. -/
def sget (d : List (String × Option ℚ)) (k : String) : ℚ :=
  ((d.lookup k).getD none).getD 0

/-- `p.get(k, 0)` on the normalized personality mapping. -/
def pget (p : List (String × ℚ)) (k : String) : ℚ :=
  (p.lookup k).getD 0

/-- Raw STEM composite of `recommender.calculate_best_fit`. -/
def stem_score (s : String → ℚ) (p : List (String × ℚ)) : ℚ :=
  (s "math" * (35 / 100) + s "physics" * (25 / 100) + s "chemistry" * (15 / 100)
    + s "computer" * (25 / 100)) * (7 / 10 + 3 / 10 * pget p "openness")

/-- Raw ARTS composite of `recommender.calculate_best_fit`. -/
def arts_score (s : String → ℚ) (p : List (String × ℚ)) : ℚ :=
  (s "english" * (5 / 10) + s "urdu" * (3 / 10) + s "biology" * (2 / 10))
    * (6 / 10 + 4 / 10 * pget p "openness")

/-- Raw COMMERCE composite of `recommender.calculate_best_fit`. -/
def commerce_score (s : String → ℚ) (p : List (String × ℚ)) : ℚ :=
  (s "math" * (5 / 10) + s "english" * (3 / 10) + s "computer" * (2 / 10))
    * (6 / 10 + 4 / 10 * pget p "conscientiousness")

/-- The floored field-score table
`{'STEM': max(0, ...), 'ARTS': max(0, ...), 'COMMERCE': max(0, ...)}`. -/
def rawFieldScores (scores_dict : List (String × Option ℚ))
    (personality : Option (List (String × RawVal))) : List (String × ℚ) :=
  let s := sget scores_dict
  let p := normalize_personality personality
  [("STEM", max 0 (stem_score s p)), ("ARTS", max 0 (arts_score s p)),
   ("COMMERCE", max 0 (commerce_score s p))]

/-- Rounding to the nearest integer (the model of Python `round`; every
statement below relies only on the result being within `1/2` of `q`). -/
def roundQ (q : ℚ) : ℤ := Rat.floor (q + 1 / 2)

/-- Python `round(q, 3)`, modelled on rationals. -/
def round3 (q : ℚ) : ℚ := ((roundQ (1000 * q) : ℤ) : ℚ) / 1000

/-- `max(normalized_scores, key=normalized_scores.get)`: the first key of
maximal value in iteration order. -/
def firstArgmaxAux : String × ℚ → List (String × ℚ) → String
  | best, [] => best.1
  | best, kv :: rest => firstArgmaxAux (if best.2 < kv.2 then kv else best) rest

/-- First-max key of a nonempty association list (Python `max` raises on
an empty dict; the engine always passes three entries). -/
def firstArgmax : List (String × ℚ) → String
  | [] => ""
  | kv :: rest => firstArgmaxAux kv rest

/-- The result record of `recommender.calculate_best_fit`. -/
structure Recommendation where
  best_field : String
  best_subfields : List String
  scores : List (String × ℚ)
deriving DecidableEq, Repr

/-- `recommender.calculate_best_fit`: floored composites, total with the
`or 1.0` sentinel, rounded normalization, first-max field choice and
subfield lookup. -/
def calculate_best_fit (scores_dict : List (String × Option ℚ))
    (personality : Option (List (String × RawVal))) : Recommendation :=
  let scores := rawFieldScores scores_dict personality
  let sum := (scores.map Prod.snd).sum
  let total := if sum = 0 then 1 else sum
  let normalized := scores.map (fun kv => (kv.1, round3 (kv.2 / total)))
  let best_field := firstArgmax normalized
  { best_field := best_field,
    best_subfields := ((SUBFIELDS.lookup best_field).getD []),
    scores := normalized }

/-- `recommender.recommend_field_for_student`. -/
def recommend_field_for_student (marks : Option (List MarksRecord))
    (personality : Option (List (String × RawVal))) : Recommendation :=
  calculate_best_fit (extract_subject_scores marks) personality

/-! ## Helper lemmas -/

theorem ratFloor_eq (q : ℚ) : Rat.floor q = ⌊q⌋ := by
  rw [Rat.floor_def', ← Rat.floor_def]

theorem pyInt_eq (q : ℚ) : pyInt q = if q < 0 then ⌈q⌉ else ⌊q⌋ := by
  rw [pyInt, ratFloor_eq, ratFloor_eq]
  simp [Int.floor_neg]

theorem roundQ_eq (q : ℚ) : roundQ q = round q := by
  rw [roundQ, ratFloor_eq, round_eq]

theorem scanNumsAux_fst_ge (tl : List String) (j remaining : ℕ) (nums : List ℚ) :
    j ≤ (scanNumsAux tl j remaining nums).1 := by
  induction remaining generalizing j nums with
  | zero => exact le_refl j
  | succ r ih =>
    rw [scanNumsAux]
    split
    · split
      · exact le_trans (Nat.le_succ j) (ih (j + 1) _)
      · exact le_trans (Nat.le_succ j) (ih (j + 1) _)
    · exact le_refl j

theorem scanNums_fst_ge (tl : List String) (j : ℕ) : j ≤ (scanNums tl j).1 :=
  scanNumsAux_fst_ge tl j 6 []

/-- Any fuel of at least `tl.length - i` computes the same records: the
fuel is an artifact of the embedding, not of the loop. -/
theorem primaryPassAux_fuel_eq (tl : List String) :
    ∀ fuel fuel' i, tl.length - i ≤ fuel → tl.length - i ≤ fuel' →
      primaryPassAux tl fuel i = primaryPassAux tl fuel' i := by
  intro fuel
  induction fuel with
  | zero =>
    intro fuel' i hf hf'
    cases fuel' with
    | zero => rfl
    | succ f' =>
      rw [primaryPassAux, primaryPassAux]
      split
      · omega
      · rfl
  | succ f ih =>
    intro fuel' i hf hf'
    cases fuel' with
    | zero =>
      rw [primaryPassAux, primaryPassAux]
      split
      · omega
      · rfl
    | succ f' =>
      rw [primaryPassAux, primaryPassAux]
      split
      case isTrue h =>
        have h1 : tl.length - (i + 1) ≤ f := by omega
        have h1' : tl.length - (i + 1) ≤ f' := by omega
        dsimp only
        split
        · exact ih f' (i + 1) h1 h1'
        · split
          · rcases hsc : (scanNums tl (i + 1)).2 with _ | ⟨n1, _ | ⟨n2, tail⟩⟩
            · exact ih f' (i + 1) h1 h1'
            · exact ih f' (i + 1) h1 h1'
            · cases tail with
              | nil =>
                have hge := scanNums_fst_ge tl (i + 1)
                exact congrArg _ (ih f' (scanNums tl (i + 1)).1 (by omega) (by omega))
              | cons a b => exact ih f' (i + 1) h1 h1'
          · exact ih f' (i + 1) h1 h1'
      case isFalse => rfl

theorem takeDigits_prefixOf (l : List Char) : takeDigits l <+: l := by
  induction l with
  | nil => exact List.prefix_refl []
  | cons c cs ih =>
    rw [takeDigits]
    split
    · exact (List.prefix_cons_inj c).mpr ih
    · exact List.nil_prefix

theorem prefix_append_drop {p l : List Char} (hp : p <+: l) :
    p ++ l.drop p.length = l := by
  obtain ⟨t, rfl⟩ := hp
  rw [List.drop_left]

theorem findNumTok_infix (cs : List Char) (tok : List Char)
    (h : findNumTok cs = some tok) : tok <:+: cs := by
  induction cs with
  | nil => simp [findNumTok] at h
  | cons c cs ih =>
    rw [findNumTok] at h
    split at h
    · have hpre := prefix_append_drop (takeDigits_prefixOf (c :: cs))
      split at h
      case h_1 cs2 heq =>
        rw [Option.some_inj] at h
        subst h
        refine List.IsPrefix.isInfix ?_
        conv_rhs => rw [← hpre, heq]
        rw [List.prefix_append_right_inj, List.prefix_cons_inj]
        exact takeDigits_prefixOf cs2
      case h_2 =>
        rw [Option.some_inj] at h
        subst h
        exact (takeDigits_prefixOf (c :: cs)).isInfix
    · exact List.infix_cons (ih h)

theorem natOfDigits_nonneg (ds : List Char) : (0 : ℚ) ≤ (natOfDigits ds : ℚ) := by
  exact_mod_cast Nat.zero_le _

theorem parseNumTok_nonneg (tok : List Char) : 0 ≤ parseNumTok tok := by
  rw [parseNumTok]
  split
  · exact add_nonneg (natOfDigits_nonneg _)
      (div_nonneg (natOfDigits_nonneg _) (by positivity))
  · exact natOfDigits_nonneg _

/-- C5: the numeric token extractor either returns `None` or a
non-negative value read off a substring of the comma-stripped input (the
leftmost `digits[.digits]` match); being a total function it never
raises. -/
theorem C5_extract_number_robust (s : String) :
    extract_number_robust s = none ∨
    ∃ tok : List Char, tok <:+: s.data.filter (fun c => c ≠ ',') ∧
      extract_number_robust s = some (parseNumTok tok) ∧ 0 ≤ parseNumTok tok := by
  cases h : findNumTok (s.data.filter (fun c => c ≠ ',')) with
  | none => exact Or.inl (by rw [extract_number_robust, h]; rfl)
  | some tok =>
    exact Or.inr ⟨tok, findNumTok_infix _ tok h,
      by rw [extract_number_robust, h]; rfl, parseNumTok_nonneg tok⟩

theorem scanNumsAux_length_le (tl : List String) (remaining : ℕ) :
    ∀ j nums, nums.length ≤ 2 → (scanNumsAux tl j remaining nums).2.length ≤ 2 := by
  induction remaining with
  | zero => intro j nums h; exact h
  | succ r ih =>
    intro j nums h
    rw [scanNumsAux]
    split
    case isTrue hc =>
      split
      · exact ih (j + 1) _ (by simp; omega)
      · exact ih (j + 1) nums h
    case isFalse => exact h

theorem scanNumsAux_fst_le (tl : List String) (remaining : ℕ) :
    ∀ j nums, (scanNumsAux tl j remaining nums).1 ≤ j + remaining := by
  induction remaining with
  | zero => intro j nums; exact Nat.le_refl j
  | succ r ih =>
    intro j nums
    rw [scanNumsAux]
    split
    · split
      · exact le_trans (ih (j + 1) _) (by omega)
      · exact le_trans (ih (j + 1) _) (by omega)
    · omega

theorem primaryPassAux_length_le (tl : List String) :
    ∀ fuel i, (primaryPassAux tl fuel i).length ≤ tl.length - i := by
  intro fuel
  induction fuel with
  | zero => intro i; simp [primaryPassAux]
  | succ f ih =>
    intro i
    rw [primaryPassAux]
    split
    case isTrue h =>
      dsimp only
      split
      · exact le_trans (ih (i + 1)) (by omega)
      · split
        · rcases hsc : (scanNums tl (i + 1)).2 with _ | ⟨n1, _ | ⟨n2, tail⟩⟩
          · exact le_trans (ih (i + 1)) (by omega)
          · exact le_trans (ih (i + 1)) (by omega)
          · cases tail with
            | nil =>
              have hge := scanNums_fst_ge tl (i + 1)
              have hrec := ih (scanNums tl (i + 1)).1
              simp only [List.length_cons]
              omega
            | cons a b => exact le_trans (ih (i + 1)) (by omega)
        · exact le_trans (ih (i + 1)) (by omega)
    case isFalse => simp

/-- C9: the table built by `parse_marks_from_ocr_df` never has more
records than there were input tokens — in the primary pass as well as in
the fallback pass. -/
theorem C9_length_bound (tl : List String) :
    (primaryPass tl 0).length ≤ tl.length ∧
    (fallbackPass tl).length ≤ tl.length ∧
    (parse_marks_from_ocr_df tl).length ≤ tl.length := by
  have hp : (primaryPass tl 0).length ≤ tl.length := by
    have := primaryPassAux_length_le tl (tl.length - 0) 0
    simpa [primaryPass] using this
  have hf : (fallbackPass tl).length ≤ tl.length := by
    rw [fallbackPass]
    exact List.length_filterMap_le _ _
  refine ⟨hp, hf, ?_⟩
  rw [parse_marks_from_ocr_df]
  split
  · exact hf
  · exact hp

theorem hasAlpha2_iff (l : List Char) :
    hasAlpha2 l = true ↔
      ∃ (l1 : List Char) (a b : Char) (l2 : List Char),
        l = l1 ++ a :: b :: l2 ∧ a.isAlpha = true ∧ b.isAlpha = true := by
  induction l with
  | nil =>
    simp only [hasAlpha2]
    constructor
    · intro h; cases h
    · rintro ⟨l1, a, b, l2, h, -, -⟩
      exact absurd h (by simp)
  | cons c cs ih =>
    cases cs with
    | nil =>
      simp only [hasAlpha2]
      constructor
      · intro h; cases h
      · rintro ⟨l1, a, b, l2, h, -, -⟩
        rcases l1 with _ | ⟨x, l1⟩ <;> simp at h
    | cons d ds =>
      rw [hasAlpha2, Bool.or_eq_true, Bool.and_eq_true]
      constructor
      · rintro (⟨hc, hd⟩ | h)
        · exact ⟨[], c, d, ds, rfl, hc, hd⟩
        · obtain ⟨l1, a, b, l2, heq, ha, hb⟩ := ih.mp h
          exact ⟨c :: l1, a, b, l2, by rw [heq]; rfl, ha, hb⟩
      · rintro ⟨l1, a, b, l2, heq, ha, hb⟩
        rcases l1 with _ | ⟨x, l1⟩
        · simp only [List.nil_append, List.cons.injEq] at heq
          obtain ⟨rfl, rfl, -⟩ := heq
          exact Or.inl ⟨ha, hb⟩
        · simp only [List.cons_append, List.cons.injEq] at heq
          obtain ⟨rfl, heq⟩ := heq
          exact Or.inr (ih.mpr ⟨l1, a, b, l2, heq, ha, hb⟩)

theorem containsSub_iff (hay pat : List Char) :
    containsSub hay pat = true ↔ pat <:+: hay := by
  rw [containsSub, decide_eq_true_iff]

theorem isCandidateSubject_iff (t : String) :
    isCandidateSubject t = true ↔
      (∃ (l1 : List Char) (a b : Char) (l2 : List Char),
        t.data = l1 ++ a :: b :: l2 ∧ a.isAlpha = true ∧ b.isAlpha = true) ∧
      ¬("MARK".data <:+: (pyUpper t).data) := by
  rw [isCandidateSubject, Bool.and_eq_true, Bool.not_eq_true']
  rw [hasAlpha2_iff]
  constructor
  · rintro ⟨h1, h2⟩
    refine ⟨h1, ?_⟩
    intro hin
    rw [← containsSub_iff] at hin
    rw [show (pyUpper t).data = t.data.map Char.toUpper from rfl] at hin
    rw [hin] at h2
    cases h2
  · rintro ⟨h1, h2⟩
    refine ⟨h1, ?_⟩
    rw [← Bool.not_eq_true]
    intro hc
    exact h2 (by
      rw [show (pyUpper t).data = t.data.map Char.toUpper from rfl]
      exact (containsSub_iff _ _).mp hc)

/-- One step of the primary-pass loop, phrased on `primaryPass` itself
(the fuel of `primaryPassAux` eliminated). -/
theorem primaryPass_step (tl : List String) (i : ℕ) (h : i < tl.length) :
    primaryPass tl i =
      (if (pyStrip (tl.get ⟨i, h⟩)).data.length < 2 then primaryPass tl (i + 1)
       else if isCandidateSubject (pyStrip (tl.get ⟨i, h⟩)) then
         match (scanNums tl (i + 1)).2 with
         | [n1, n2] =>
           ⟨pyStrip (tl.get ⟨i, h⟩), some ((pyInt n1 : ℤ) : ℚ), some ((pyInt n2 : ℤ) : ℚ)⟩ ::
             primaryPass tl (scanNums tl (i + 1)).1
         | _ => primaryPass tl (i + 1)
       else primaryPass tl (i + 1)) := by
  have hfuel : tl.length - i = (tl.length - (i + 1)) + 1 := by omega
  rw [primaryPass, hfuel, primaryPassAux, dif_pos h]
  dsimp only
  have hnext : primaryPass tl (i + 1) = primaryPassAux tl (tl.length - (i + 1)) (i + 1) := rfl
  split
  · rw [hnext]
  · split
    · rcases hsc : (scanNums tl (i + 1)).2 with _ | ⟨n1, _ | ⟨n2, tail⟩⟩
      · rw [hnext]
      · rw [hnext]
      · cases tail with
        | nil =>
          have hge := scanNums_fst_ge tl (i + 1)
          rw [primaryPass]
          exact congrArg _
            (primaryPassAux_fuel_eq tl _ _ _ (by omega) (by omega))
        | cons a b => rw [hnext]
    · rw [hnext]

/-- C7: behaviour of the primary pass at any cursor position: tokens
whose stripped text is shorter than 2 characters are skipped; a token is
a candidate subject label exactly when it has two consecutive alphabetic
characters and no case-insensitive "MARK" substring; for a candidate the
scan window covers at most 6 following tokens and collects at most 2
numbers; a record (with both numbers truncated to integers) is emitted
exactly when 2 numbers were collected, resuming past the last consumed
token, and otherwise the cursor advances by 1.  On the buffer
["MARKS OBTAINED","Chemistry","100","85","Biology","50","40"] the parser
yields exactly ("Chemistry",100,85) and ("Biology",50,40). -/
theorem C7_primary_pass (tl : List String) (i : ℕ) (h : i < tl.length) :
    ((pyStrip (tl.get ⟨i, h⟩)).data.length < 2 →
      primaryPass tl i = primaryPass tl (i + 1)) ∧
    (isCandidateSubject (pyStrip (tl.get ⟨i, h⟩)) = true ↔
      (∃ (l1 : List Char) (a b : Char) (l2 : List Char),
        (pyStrip (tl.get ⟨i, h⟩)).data = l1 ++ a :: b :: l2 ∧
          a.isAlpha = true ∧ b.isAlpha = true) ∧
      ¬("MARK".data <:+: (pyUpper (pyStrip (tl.get ⟨i, h⟩))).data)) ∧
    (isCandidateSubject (pyStrip (tl.get ⟨i, h⟩)) = false →
      2 ≤ (pyStrip (tl.get ⟨i, h⟩)).data.length →
      primaryPass tl i = primaryPass tl (i + 1)) ∧
    (isCandidateSubject (pyStrip (tl.get ⟨i, h⟩)) = true →
      2 ≤ (pyStrip (tl.get ⟨i, h⟩)).data.length →
      (i + 1 ≤ (scanNums tl (i + 1)).1 ∧ (scanNums tl (i + 1)).1 ≤ i + 7 ∧
        (scanNums tl (i + 1)).2.length ≤ 2) ∧
      (∀ n1 n2, (scanNums tl (i + 1)).2 = [n1, n2] →
        primaryPass tl i =
          ⟨pyStrip (tl.get ⟨i, h⟩), some ((pyInt n1 : ℤ) : ℚ),
            some ((pyInt n2 : ℤ) : ℚ)⟩ :: primaryPass tl (scanNums tl (i + 1)).1) ∧
      ((scanNums tl (i + 1)).2.length ≠ 2 →
        primaryPass tl i = primaryPass tl (i + 1))) ∧
    parse_marks_from_ocr_df
        ["MARKS OBTAINED", "Chemistry", "100", "85", "Biology", "50", "40"] =
      [⟨"Chemistry", some 100, some 85⟩, ⟨"Biology", some 50, some 40⟩] := by
  refine ⟨?_, isCandidateSubject_iff _, ?_, ?_, by with_unfolding_all decide⟩
  · intro hshort
    rw [primaryPass_step tl i h, if_pos hshort]
  · intro hcand hlen
    rw [primaryPass_step tl i h, if_neg (by omega), if_neg (by rw [hcand]; simp)]
  · intro hcand hlen
    refine ⟨⟨scanNums_fst_ge tl (i + 1),
      le_trans (scanNumsAux_fst_le tl 6 (i + 1) []) (by omega),
      scanNumsAux_length_le tl 6 (i + 1) [] (by simp)⟩, ?_, ?_⟩
    · intro n1 n2 hnums
      rw [primaryPass_step tl i h, if_neg (by omega), if_pos hcand, hnums]
    · intro hnums
      rw [primaryPass_step tl i h, if_neg (by omega), if_pos hcand]
      rcases hsc : (scanNums tl (i + 1)).2 with _ | ⟨n1, _ | ⟨n2, tail⟩⟩
      · rfl
      · rfl
      · cases tail with
        | nil => rw [hsc] at hnums; simp at hnums
        | cons a b => rfl

/-- Witness for C7: the primary pass applied at cursor 1 of the example
buffer (the "Chemistry" token) emits ("Chemistry",100,85) and resumes at
cursor 4, yielding ("Biology",50,40) next. -/
theorem C7_primary_pass_witness :
    primaryPass ["MARKS OBTAINED", "Chemistry", "100", "85", "Biology", "50", "40"] 1 =
      [⟨"Chemistry", some 100, some 85⟩, ⟨"Biology", some 50, some 40⟩] := by
  have h := C7_primary_pass
    ["MARKS OBTAINED", "Chemistry", "100", "85", "Biology", "50", "40"] 1
    (by with_unfolding_all decide)
  have hstep := (h.2.2.2.1 (by with_unfolding_all decide) (by with_unfolding_all decide)).2.1
    100 85 (by with_unfolding_all decide)
  rw [hstep]
  have h4 : (scanNums ["MARKS OBTAINED", "Chemistry", "100", "85", "Biology", "50", "40"]
      (1 + 1)).1 = 4 := by with_unfolding_all decide
  rw [h4]
  have hrest : primaryPass ["MARKS OBTAINED", "Chemistry", "100", "85", "Biology", "50", "40"] 4 =
      [⟨"Biology", some 50, some 40⟩] := by with_unfolding_all decide
  rw [hrest]
  with_unfolding_all decide

/-- C8 counterexample: on the buffer ["Sub: 99.5"] the primary pass
emits nothing, the fallback extracts the number 99.5 from the parts, yet
the emitted record's maximum is 99 — `int()`-truncated, not "the first
extracted number" as the claim states. -/
theorem C8_counterexample :
    parse_marks_from_ocr_df ["Sub: 99.5"] = [⟨"Sub", some 99, none⟩] ∧
    (pySplitColonDash "Sub: 99.5").filterMap extract_number_robust = [(995 : ℚ) / 10] ∧
    (99 : ℚ) ≠ (995 : ℚ) / 10 := by
  refine ⟨by with_unfolding_all decide, by with_unfolding_all decide, ?_⟩
  with_unfolding_all decide

/-- C8 (amended): the fallback pass runs exactly when the primary pass
produced zero records; a token splitting on `:`/`-` into 2+ parts with
at least one extractable number yields one record whose subject is the
first part trimmed, whose maximum is the first number truncated to
integer, and whose obtained is the second number truncated to integer
when a second exists, else absent; maximum is present in every
fallback-produced record (obtained-present-with-maximum-absent cannot
occur). -/
theorem C8_fallback_pass (tl : List String) (t : String) :
    (primaryPass tl 0 = [] → parse_marks_from_ocr_df tl = fallbackPass tl) ∧
    (primaryPass tl 0 ≠ [] → parse_marks_from_ocr_df tl = primaryPass tl 0) ∧
    fallbackPass tl = tl.filterMap fallbackRecord ∧
    ((pySplitColonDash t).length < 2 → fallbackRecord t = none) ∧
    (2 ≤ (pySplitColonDash t).length →
      ((pySplitColonDash t).filterMap extract_number_robust = [] →
        fallbackRecord t = none) ∧
      (∀ n1 rest, (pySplitColonDash t).filterMap extract_number_robust = n1 :: rest →
        fallbackRecord t =
          some ⟨pyStrip ((pySplitColonDash t).headD ""), some ((pyInt n1 : ℤ) : ℚ),
            rest.head?.map (fun n2 => ((pyInt n2 : ℤ) : ℚ))⟩)) ∧
    (∀ r ∈ fallbackPass tl, r.maximum ≠ none) := by
  refine ⟨?_, ?_, rfl, ?_, ?_, ?_⟩
  · intro hempty
    rw [parse_marks_from_ocr_df]
    rw [if_pos (by rw [hempty]; rfl)]
  · intro hne
    rw [parse_marks_from_ocr_df]
    rw [if_neg (by rwa [List.isEmpty_iff])]
  · intro hshort
    rw [fallbackRecord]
    rw [if_neg (by omega)]
  · intro hlen
    constructor
    · intro hnone
      rw [fallbackRecord, if_pos hlen, hnone]
    · intro n1 rest hcons
      rw [fallbackRecord, if_pos hlen, hcons]
  · intro r hr
    rw [fallbackPass, List.mem_filterMap] at hr
    obtain ⟨t', -, ht'⟩ := hr
    rw [fallbackRecord] at ht'
    split at ht'
    · split at ht'
      · cases ht'
      · rw [Option.some_inj] at ht'
        rw [← ht']
        simp
    · cases ht'

/-- Witness for C8: on the buffer ["Math - 100 - 85"] the primary pass
finds no record, so the fallback produces ("Math", 100, 85). -/
theorem C8_fallback_pass_witness :
    parse_marks_from_ocr_df ["Math - 100 - 85"] = [⟨"Math", some 100, some 85⟩] := by
  have h := (C8_fallback_pass ["Math - 100 - 85"] "Math - 100 - 85").1
    (by with_unfolding_all decide)
  rw [h]
  with_unfolding_all decide

/-- C4 counterexample: the raw trait value −5 falls in the "at most 5,
divide by 5" tier and is normalized to −1, which does not lie in [0,1];
so the normalizer's output values are not always within [0,1]. -/
theorem C4_counterexample :
    normalize_personality (some [("trait", RawVal.num (-5))]) = [("trait", (-1 : ℚ))] ∧
    ¬((0 : ℚ) ≤ -1) := by
  refine ⟨by with_unfolding_all decide, by norm_num⟩

/-- C4 (amended): the normalizer keeps the keys and applies the
three-tier rule to every value (at most 5 → divide by 5; in (5,100] →
divide by 100; above 100 → clamped to 1 after dividing by 100; absent or
unparseable → 0), never failing; provided every parseable raw value is
non-negative, every output value lies in [0,1].  In particular 3 ↦ 0.6,
50 ↦ 0.5, 150 ↦ 1 and an unparseable value ↦ 0. -/
theorem C4_normalize_personality (p : Option (List (String × RawVal)))
    (hnn : ∀ kv ∈ p.getD [], ∀ q : ℚ, kv.2 = RawVal.num q → 0 ≤ q) :
    (normalize_personality p).map Prod.fst = (p.getD []).map Prod.fst ∧
    normalize_personality p = (p.getD []).map (fun kv => (kv.1, normalizeVal kv.2)) ∧
    (∀ kv ∈ normalize_personality p, 0 ≤ kv.2 ∧ kv.2 ≤ 1) ∧
    (∀ q : ℚ, q ≤ 5 → normalizeVal (RawVal.num q) = q / 5) ∧
    (∀ q : ℚ, 5 < q → q ≤ 100 → normalizeVal (RawVal.num q) = q / 100) ∧
    (∀ q : ℚ, 100 < q → normalizeVal (RawVal.num q) = min 1 (q / 100) ∧
      min 1 (q / 100) = 1) ∧
    normalizeVal RawVal.null = 0 ∧ normalizeVal RawVal.junk = 0 ∧
    normalizeVal (RawVal.num 3) = 3 / 5 ∧ normalizeVal (RawVal.num 50) = 1 / 2 ∧
    normalizeVal (RawVal.num 150) = 1 := by
  refine ⟨by rw [normalize_personality, List.map_map]; rfl, rfl, ?_, ?_, ?_, ?_, rfl, rfl,
    by with_unfolding_all decide, by with_unfolding_all decide, by with_unfolding_all decide⟩
  · intro kv hkv
    rw [normalize_personality, List.mem_map] at hkv
    obtain ⟨kv', hmem, hval⟩ := hkv
    rw [← hval]
    dsimp only
    cases hv : kv'.2 with
    | null => rw [normalizeVal]; norm_num
    | junk => rw [normalizeVal]; norm_num
    | num q =>
      have hq : 0 ≤ q := hnn kv' hmem q hv
      rw [normalizeVal]
      rcases le_or_lt q 5 with h5 | h5
      · rw [if_pos h5]
        constructor
        · positivity
        · rw [div_le_one (by norm_num)]; linarith
      · rw [if_neg (by linarith)]
        rcases le_or_lt q 100 with h100 | h100
        · rw [if_pos h100]
          constructor
          · positivity
          · rw [div_le_one (by norm_num)]; linarith
        · rw [if_neg (by linarith)]
          constructor
          · exact le_min (by norm_num) (by positivity)
          · exact min_le_left _ _
  · intro q h5
    rw [normalizeVal, if_pos h5]
  · intro q h5 h100
    rw [normalizeVal, if_neg (by linarith), if_pos h100]
  · intro q h100
    refine ⟨by rw [normalizeVal, if_neg (by linarith), if_neg (by linarith)], ?_⟩
    rw [min_eq_left]
    rw [le_div_iff₀ (by norm_num)]
    linarith

/-- Witness for C4: a concrete two-trait map with non-negative raw
values normalizes to in-range values. -/
theorem C4_normalize_personality_witness :
    normalize_personality (some [("openness", RawVal.num 3), ("grit", RawVal.junk)]) =
      [("openness", (3 : ℚ) / 5), ("grit", 0)] := by
  have h := (C4_normalize_personality
    (some [("openness", RawVal.num 3), ("grit", RawVal.junk)])
    (by
      rintro kv hkv q hq
      simp only [Option.getD_some, List.mem_cons, List.not_mem_nil, or_false] at hkv
      rcases hkv with rfl | rfl
      · rw [RawVal.num.injEq] at hq
        rw [← hq]
        norm_num
      · cases hq)).2.1
  rw [h]
  with_unfolding_all decide

/-- C1: the raw composite field scores are exactly the spec's weighted
formulas — STEM, ARTS and COMMERCE composites multiplied by their
personality factors, with openness/conscientiousness the normalized
personality values defaulting to 0 when absent, unknown subject scores
contributing 0, and each raw score floored at 0. -/
theorem C1_raw_field_scores (sd : List (String × Option ℚ))
    (p : Option (List (String × RawVal))) :
    rawFieldScores sd p =
      [("STEM", max 0 ((sget sd "math" * 0.35 + sget sd "physics" * 0.25
          + sget sd "chemistry" * 0.15 + sget sd "computer" * 0.25)
          * (0.7 + 0.3 * pget (normalize_personality p) "openness"))),
       ("ARTS", max 0 ((sget sd "english" * 0.5 + sget sd "urdu" * 0.3
          + sget sd "biology" * 0.2)
          * (0.6 + 0.4 * pget (normalize_personality p) "openness"))),
       ("COMMERCE", max 0 ((sget sd "math" * 0.5 + sget sd "english" * 0.3
          + sget sd "computer" * 0.2)
          * (0.6 + 0.4 * pget (normalize_personality p) "conscientiousness")))] ∧
    (∀ k, sd.lookup k = none → sget sd k = 0) ∧
    (∀ k, sd.lookup k = some none → sget sd k = 0) ∧
    (∀ k v, sd.lookup k = some (some v) → sget sd k = v) ∧
    (∀ k, (normalize_personality p).lookup k = none →
      pget (normalize_personality p) k = 0) ∧
    (∀ k v, (normalize_personality p).lookup k = some v →
      pget (normalize_personality p) k = v) := by
  refine ⟨?_, ?_, ?_, ?_, ?_, ?_⟩
  · rw [rawFieldScores, stem_score, arts_score, commerce_score]
    norm_num
  · intro k hk; rw [sget, hk]; rfl
  · intro k hk; rw [sget, hk]; rfl
  · intro k v hk; rw [sget, hk]; rfl
  · intro k hk; rw [pget, hk]; rfl
  · intro k v hk; rw [pget, hk]; rfl

/-- Witness for C1: raw field scores of a student with only a math score
of 0.9 and no personality values: STEM = 0.9·0.35·0.7 = 0.2205, ARTS =
0, COMMERCE = 0.9·0.5·0.6 = 0.27. -/
theorem C1_raw_field_scores_witness :
    rawFieldScores [("math", some ((9 : ℚ) / 10))] none =
      [("STEM", (2205 : ℚ) / 10000), ("ARTS", 0), ("COMMERCE", (27 : ℚ) / 100)] ∧
    sget [("math", some ((9 : ℚ) / 10))] "math" = (9 : ℚ) / 10 := by
  have h := C1_raw_field_scores [("math", some ((9 : ℚ) / 10))] none
  constructor
  · rw [h.1]
    set_option maxRecDepth 100000 in with_unfolding_all decide
  · exact h.2.2.2.1 "math" ((9 : ℚ) / 10)
      (by set_option maxRecDepth 100000 in with_unfolding_all decide)

/-- C3: the returned best_field is the field of strictly highest
normalized score, ties resolved by the fixed first-max priority
STEM > ARTS > COMMERCE, and best_subfields is exactly the static
subfield list of best_field. -/
theorem C3_best_field (sd : List (String × Option ℚ))
    (p : Option (List (String × RawVal))) (x y z : ℚ)
    (hs : (calculate_best_fit sd p).scores = [("STEM", x), ("ARTS", y), ("COMMERCE", z)]) :
    ((calculate_best_fit sd p).best_field = "STEM" ↔ y ≤ x ∧ z ≤ x) ∧
    ((calculate_best_fit sd p).best_field = "ARTS" ↔ x < y ∧ z ≤ y) ∧
    ((calculate_best_fit sd p).best_field = "COMMERCE" ↔ x < z ∧ y < z) ∧
    (calculate_best_fit sd p).best_subfields =
      (SUBFIELDS.lookup (calculate_best_fit sd p).best_field).getD [] ∧
    ((calculate_best_fit sd p).best_field = "STEM" →
      (calculate_best_fit sd p).best_subfields =
        ["Engineering", "Computer Science", "Pharmacy", "Medicine"]) ∧
    ((calculate_best_fit sd p).best_field = "ARTS" →
      (calculate_best_fit sd p).best_subfields =
        ["Design", "Fine Arts", "Journalism", "Languages"]) ∧
    ((calculate_best_fit sd p).best_field = "COMMERCE" →
      (calculate_best_fit sd p).best_subfields =
        ["Finance", "Accounting", "Business", "Economics"]) := by
  have hbf : (calculate_best_fit sd p).best_field =
      firstArgmax ((calculate_best_fit sd p).scores) := rfl
  have hsub : (calculate_best_fit sd p).best_subfields =
      (SUBFIELDS.lookup (calculate_best_fit sd p).best_field).getD [] := rfl
  rw [hs] at hbf
  rcases lt_or_le x y with hxy | hxy
  · rcases lt_or_le y z with hyz | hyz
    · have hb : (calculate_best_fit sd p).best_field = "COMMERCE" := by
        rw [hbf]; simp [firstArgmax, firstArgmaxAux, hxy, hyz]
      refine ⟨?_, ?_, ?_, hsub, ?_, ?_, ?_⟩
      · rw [hb]
        exact iff_of_false (by simp) (by rintro ⟨h1, h2⟩; linarith)
      · rw [hb]
        exact iff_of_false (by simp) (by rintro ⟨h1, h2⟩; linarith)
      · rw [hb]
        exact iff_of_true rfl ⟨by linarith, hyz⟩
      · rw [hb]; intro habs; simp at habs
      · rw [hb]; intro habs; simp at habs
      · intro hb2; rw [hsub, hb]; with_unfolding_all decide
    · have hb : (calculate_best_fit sd p).best_field = "ARTS" := by
        rw [hbf]; simp [firstArgmax, firstArgmaxAux, hxy, not_lt.mpr hyz]
      refine ⟨?_, ?_, ?_, hsub, ?_, ?_, ?_⟩
      · rw [hb]
        exact iff_of_false (by simp) (by rintro ⟨h1, h2⟩; linarith)
      · rw [hb]
        exact iff_of_true rfl ⟨hxy, hyz⟩
      · rw [hb]
        exact iff_of_false (by simp) (by rintro ⟨h1, h2⟩; linarith)
      · rw [hb]; intro habs; simp at habs
      · intro hb2; rw [hsub, hb]; with_unfolding_all decide
      · rw [hb]; intro habs; simp at habs
  · rcases lt_or_le x z with hxz | hxz
    · have hb : (calculate_best_fit sd p).best_field = "COMMERCE" := by
        rw [hbf]; simp [firstArgmax, firstArgmaxAux, not_lt.mpr hxy, hxz]
      refine ⟨?_, ?_, ?_, hsub, ?_, ?_, ?_⟩
      · rw [hb]
        exact iff_of_false (by simp) (by rintro ⟨h1, h2⟩; linarith)
      · rw [hb]
        exact iff_of_false (by simp) (by rintro ⟨h1, h2⟩; linarith)
      · rw [hb]
        exact iff_of_true rfl ⟨hxz, by linarith⟩
      · rw [hb]; intro habs; simp at habs
      · rw [hb]; intro habs; simp at habs
      · intro hb2; rw [hsub, hb]; with_unfolding_all decide
    · have hb : (calculate_best_fit sd p).best_field = "STEM" := by
        rw [hbf]; simp [firstArgmax, firstArgmaxAux, not_lt.mpr hxy, not_lt.mpr hxz]
      refine ⟨?_, ?_, ?_, hsub, ?_, ?_, ?_⟩
      · rw [hb]
        exact iff_of_true rfl ⟨hxy, hxz⟩
      · rw [hb]
        exact iff_of_false (by simp) (by rintro ⟨h1, h2⟩; linarith)
      · rw [hb]
        exact iff_of_false (by simp) (by rintro ⟨h1, h2⟩; linarith)
      · intro hb2; rw [hsub, hb]; with_unfolding_all decide
      · rw [hb]; intro habs; simp at habs
      · rw [hb]; intro habs; simp at habs

/-- Witness for C3: with only math = 1.0 known and no personality, the
normalized scores are STEM 0.45, ARTS 0, COMMERCE 0.55, so COMMERCE wins
and its static subfields are returned. -/
theorem C3_best_field_witness :
    (calculate_best_fit [("math", some (1 : ℚ))] none).best_field = "COMMERCE" ∧
    (calculate_best_fit [("math", some (1 : ℚ))] none).best_subfields =
      ["Finance", "Accounting", "Business", "Economics"] := by
  have h := C3_best_field [("math", some (1 : ℚ))] none ((9 : ℚ) / 20) 0 ((11 : ℚ) / 20)
    (by set_option maxRecDepth 100000 in with_unfolding_all decide)
  have hb := h.2.2.1.mpr ⟨by norm_num, by norm_num⟩
  exact ⟨hb, h.2.2.2.2.2.2 hb⟩

theorem roundQ_abs_le (q : ℚ) : |(roundQ q : ℚ) - q| ≤ 1 / 2 := by
  rw [roundQ_eq, abs_sub_comm]
  exact abs_sub_round q

theorem round3_zero : round3 0 = 0 := by
  rw [round3, roundQ_eq]
  norm_num

/-- C2: after the three raw field scores are computed, a zero sum makes
the sentinel divisor 1 take over and all three normalized scores are 0;
otherwise each normalized score is its raw score divided by the sum and
rounded to 3 decimals, and the normalized scores sum to 1 within
±0.001. -/
theorem C2_normalized_scores (sd : List (String × Option ℚ))
    (p : Option (List (String × RawVal))) :
    (((rawFieldScores sd p).map Prod.snd).sum = 0 →
      (calculate_best_fit sd p).scores =
        (rawFieldScores sd p).map (fun kv => (kv.1, round3 (kv.2 / 1))) ∧
      (calculate_best_fit sd p).scores = [("STEM", 0), ("ARTS", 0), ("COMMERCE", 0)]) ∧
    (((rawFieldScores sd p).map Prod.snd).sum ≠ 0 →
      (calculate_best_fit sd p).scores =
        (rawFieldScores sd p).map
          (fun kv => (kv.1, round3 (kv.2 / ((rawFieldScores sd p).map Prod.snd).sum))) ∧
      |((calculate_best_fit sd p).scores.map Prod.snd).sum - 1| ≤ 1 / 1000) := by
  obtain ⟨a, b, c, hraw, ha, hb, hc⟩ :
      ∃ a b c, rawFieldScores sd p = [("STEM", a), ("ARTS", b), ("COMMERCE", c)] ∧
        0 ≤ a ∧ 0 ≤ b ∧ 0 ≤ c :=
    ⟨_, _, _, rfl, le_max_left _ _, le_max_left _ _, le_max_left _ _⟩
  have hscores : (calculate_best_fit sd p).scores =
      (rawFieldScores sd p).map
        (fun kv => (kv.1, round3 (kv.2 /
          (if ((rawFieldScores sd p).map Prod.snd).sum = 0 then 1
           else ((rawFieldScores sd p).map Prod.snd).sum)))) := rfl
  have hT : ((rawFieldScores sd p).map Prod.snd).sum = a + b + c := by
    rw [hraw]
    simp [add_assoc]
  constructor
  · intro hsum
    have heq : (calculate_best_fit sd p).scores =
        (rawFieldScores sd p).map (fun kv => (kv.1, round3 (kv.2 / 1))) := by
      rw [hscores, if_pos hsum]
    refine ⟨heq, ?_⟩
    rw [hT] at hsum
    have ha0 : a = 0 := by linarith
    have hb0 : b = 0 := by linarith
    have hc0 : c = 0 := by linarith
    rw [heq, hraw, ha0, hb0, hc0]
    simp [round3_zero]
  · intro hsum
    have heq : (calculate_best_fit sd p).scores =
        (rawFieldScores sd p).map
          (fun kv => (kv.1, round3 (kv.2 / ((rawFieldScores sd p).map Prod.snd).sum))) := by
      rw [hscores, if_neg hsum]
    refine ⟨heq, ?_⟩
    rw [hT] at hsum heq
    have hTpos : 0 < a + b + c := lt_of_le_of_ne (by positivity) (Ne.symm hsum)
    have hsumnorm : ((calculate_best_fit sd p).scores.map Prod.snd).sum =
        round3 (a / (a + b + c)) + round3 (b / (a + b + c)) + round3 (c / (a + b + c)) := by
      rw [heq, hraw]
      simp [add_assoc]
    have hdiv : 1000 * (a / (a + b + c)) + 1000 * (b / (a + b + c))
        + 1000 * (c / (a + b + c)) = 1000 := by
      field_simp
      ring
    have hA := roundQ_abs_le (1000 * (a / (a + b + c)))
    have hB := roundQ_abs_le (1000 * (b / (a + b + c)))
    have hC := roundQ_abs_le (1000 * (c / (a + b + c)))
    rw [abs_le] at hA hB hC
    rw [hsumnorm]
    simp only [round3]
    obtain ⟨hA1, hA2⟩ := hA
    obtain ⟨hB1, hB2⟩ := hB
    obtain ⟨hC1, hC2⟩ := hC
    generalize hGA : roundQ (1000 * (a / (a + b + c))) = A at hA1 hA2 ⊢
    generalize hGB : roundQ (1000 * (b / (a + b + c))) = B at hB1 hB2 ⊢
    generalize hGC : roundQ (1000 * (c / (a + b + c))) = C at hC1 hC2 ⊢
    have hint : -1 ≤ A + B + C - 1000 ∧ A + B + C - 1000 ≤ 1 := by
      constructor
      · by_contra hcon
        push_neg at hcon
        have hc998 : (A : ℚ) + B + C ≤ 998 := by
          exact_mod_cast (by omega : A + B + C ≤ 998)
        linarith
      · by_contra hcon
        push_neg at hcon
        have hc1002 : (1002 : ℚ) ≤ (A : ℚ) + B + C := by
          exact_mod_cast (by omega : (1002 : ℤ) ≤ A + B + C)
        linarith
    have hq1 : (-1 : ℚ) ≤ (A : ℚ) + B + C - 1000 := by
      exact_mod_cast (by omega : (-1 : ℤ) ≤ A + B + C - 1000)
    have hq2 : (A : ℚ) + B + C - 1000 ≤ 1 := by
      exact_mod_cast (by omega : A + B + C - 1000 ≤ 1)
    rw [abs_le]
    constructor <;> [linarith; linarith]

/-- Witness for C2: with only math = 1.0 known the raw sum is non-zero
and the normalized scores 0.45, 0, 0.55 sum to exactly 1. -/
theorem C2_normalized_scores_witness :
    (calculate_best_fit [("math", some (1 : ℚ))] none).scores =
      [("STEM", (9 : ℚ) / 20), ("ARTS", 0), ("COMMERCE", (11 : ℚ) / 20)] ∧
    |((calculate_best_fit [("math", some (1 : ℚ))] none).scores.map Prod.snd).sum - 1|
      ≤ 1 / 1000 := by
  have h := (C2_normalized_scores [("math", some (1 : ℚ))] none).2
    (by set_option maxRecDepth 100000 in with_unfolding_all decide)
  refine ⟨?_, h.2⟩
  rw [h.1]
  set_option maxRecDepth 100000 in with_unfolding_all decide

/-- C6: the subject-score extractor always returns exactly the nine
canonical subject ids; an absent or empty table maps every id to
"unknown"; otherwise each id's value comes from scanning the alias list
in order, selecting the first record (in table order) whose subject
contains the alias case-insensitively, and scoring it as
obtained/maximum when maximum is present and positive, obtained itself
when maximum is absent or zero, and "unknown" when obtained is
absent. -/
theorem C6_extract_subject_scores (marks : Option (List MarksRecord)) :
    (extract_subject_scores marks).map Prod.fst =
      ["math", "physics", "chemistry", "biology", "computer", "english", "urdu",
       "islamiat", "pakstudies"] ∧
    (marks = none → ∀ kv ∈ extract_subject_scores marks, kv.2 = none) ∧
    (marks = some [] → ∀ kv ∈ extract_subject_scores marks, kv.2 = none) ∧
    (∀ df, marks = some df → df ≠ [] →
      extract_subject_scores marks =
        SUBJECT_KEYWORDS.map (fun kv => (kv.1, (findByAliases df kv.2).bind scoreOfRecord))) ∧
    (∀ (r : MarksRecord) (obt mx : ℚ), r.obtained = some obt → r.maximum = some mx →
      0 < mx → scoreOfRecord r = some (obt / mx)) ∧
    (∀ (r : MarksRecord) (obt : ℚ), r.obtained = some obt →
      (r.maximum = none ∨ r.maximum = some 0) → scoreOfRecord r = some obt) ∧
    (∀ r : MarksRecord, r.obtained = none → scoreOfRecord r = none) ∧
    (∀ (df : List MarksRecord) (tok : String) (toks : List String),
      (firstMatchingRecord df tok = none →
        findByAliases df (tok :: toks) = findByAliases df toks) ∧
      (∀ r, firstMatchingRecord df tok = some r →
        findByAliases df (tok :: toks) = some r)) ∧
    (∀ (df : List MarksRecord) (tok : String) (r : MarksRecord),
      firstMatchingRecord df tok = some r →
        containsCI r.subject tok = true ∧
        ∃ pre post, df = pre ++ r :: post ∧
          ∀ r2 ∈ pre, containsCI r2.subject tok = false) ∧
    (∀ hay pat : String, containsCI hay pat = true ↔
      pat.data.map Char.toUpper <:+: hay.data.map Char.toUpper) := by
  have hbind : ∀ (df : List MarksRecord) (kv : String × List String),
      (match findByAliases df kv.2 with
       | some r => (kv.1, scoreOfRecord r)
       | none => (kv.1, none)) = (kv.1, (findByAliases df kv.2).bind scoreOfRecord) := by
    intro df kv
    cases h : findByAliases df kv.2 <;> simp [h]
  have hm : ∀ df : List MarksRecord, df ≠ [] →
      extract_subject_scores (some df) =
        SUBJECT_KEYWORDS.map (fun kv => (kv.1, (findByAliases df kv.2).bind scoreOfRecord)) := by
    intro df hdf
    rw [extract_subject_scores]
    rw [if_neg (by simpa [List.isEmpty_iff] using hdf)]
    exact List.map_congr_left (fun kv _ => hbind df kv)
  refine ⟨?_, ?_, ?_, ?_, ?_, ?_, ?_, ?_, ?_, ?_⟩
  · cases marks with
    | none => with_unfolding_all decide
    | some df =>
      rcases eq_or_ne df [] with rfl | hdf
      · with_unfolding_all decide
      · rw [hm df hdf, List.map_map]
        simp [SUBJECT_KEYWORDS]
  · rintro rfl kv hkv
    rw [extract_subject_scores, List.mem_map] at hkv
    obtain ⟨kv', -, h⟩ := hkv
    rw [← h]
  · rintro rfl kv hkv
    simp only [extract_subject_scores, List.isEmpty_nil, if_true, List.mem_map] at hkv
    obtain ⟨kv', -, h⟩ := hkv
    rw [← h]
  · rintro df rfl hdf
    exact hm df hdf
  · intro r obt mx ho hmx hpos
    rcases r with ⟨subj, rmax, robt⟩
    dsimp only at ho hmx
    subst ho
    subst hmx
    simp [scoreOfRecord, hpos]
  · intro r obt ho hmx
    rcases r with ⟨subj, rmax, robt⟩
    dsimp only at ho
    subst ho
    rcases hmx with hmx | hmx <;> (dsimp only at hmx; subst hmx; simp [scoreOfRecord])
  · intro r ho
    rcases r with ⟨subj, rmax, robt⟩
    dsimp only at ho
    subst ho
    cases rmax <;> simp [scoreOfRecord]
  · intro df tok toks
    constructor
    · intro h
      rw [findByAliases, h]
    · intro r h
      rw [findByAliases, h]
  · intro df tok r h
    rw [firstMatchingRecord] at h
    obtain ⟨hp, pre, post, hsplit, hpre⟩ := List.find?_eq_some.mp h
    refine ⟨hp, pre, post, hsplit, ?_⟩
    intro r2 hr2
    have := hpre r2 hr2
    rwa [Bool.not_eq_true'] at this
  · intro hay pat
    rw [containsCI, containsSub, decide_eq_true_iff]

/-- Witness for C6: a one-record table ("MATHEMATICS", 100, 90) scores
math as 90/100 (and also computer, via the "CS" alias matching the tail
of "MATHEMATICS"), every other id staying unknown. -/
theorem C6_extract_subject_scores_witness :
    extract_subject_scores (some [⟨"MATHEMATICS", some 100, some 90⟩]) =
      [("math", some ((90 : ℚ) / 100)), ("physics", none), ("chemistry", none),
       ("biology", none), ("computer", some ((90 : ℚ) / 100)), ("english", none),
       ("urdu", none), ("islamiat", none), ("pakstudies", none)] := by
  have h := (C6_extract_subject_scores
    (some [⟨"MATHEMATICS", some 100, some 90⟩])).2.2.2.1
    [⟨"MATHEMATICS", some 100, some 90⟩] rfl (by with_unfolding_all decide)
  rw [h]
  with_unfolding_all decide

/-- C10: on the single-record table ("LITERATURE", maximum 100, obtained
80), whose subject names no computing subject, the extractor scores the
canonical id "computer" as 0.8 instead of "unknown": the configured
alias list for "computer" contains "IT", and case-insensitive substring
matching finds "IT" inside "LITERATURE". -/
theorem C10_literature_scores_computer :
    (extract_subject_scores (some [⟨"LITERATURE", some 100, some 80⟩])).lookup "computer"
        = some (some ((80 : ℚ) / 100)) ∧
    SUBJECT_KEYWORDS.lookup "computer" = some ["COMPUTER", "COMPUTER SCIENCE", "IT", "CS"] ∧
    containsCI "LITERATURE" "IT" = true ∧
    containsCI "LITERATURE" "COMPUTER" = false := by
  refine ⟨?_, by with_unfolding_all decide, by with_unfolding_all decide,
    by with_unfolding_all decide⟩
  with_unfolding_all decide

end Skillbot
